import Mathlib

/-!
# Verification of the Immix memory-manager core and VM helpers

A shallow embedding, in Lean 4, of the parts of the repository that the
checked claims are about:

* `vm/src/immix/block.rs` — the `Block` structure and its operations
  (`bump_allocate`, `find_available_hole`, `reset`, `update_hole_count`, …).
  Raw pointers are modelled as natural numbers (byte addresses); the block's
  backing region starts at the byte address stored in the `lines` field.
  Pointer arithmetic in the Rust source is in units of `Object` (32 bytes)
  or of lines (128 bytes); here it is written out in bytes.
* `vm/src/immix/mailbox_allocator.rs` — the `MailboxAllocator`, its
  allocation counter/threshold and its `Drop` implementation.
* `vm/src/vm/instructions/array.rs` — the `int_to_vector_index!` macro and
  the data path of the `array_insert` instruction.
* `compiler/src/lexer.rs` — the lexer state and `advance_column_from_token`.

The bitmap (`immix/bitmap.rs`), bucket (`immix/bucket.rs`) and global
allocator (`immix/global_allocator.rs`) modules are declared by the crate
but their sources are not available; those pieces are modelled from the
specification (sections 4.1, 4.3 and 4.4) and carry a doc comment saying so.
-/

/-! ## Constants from `vm/src/immix/block.rs` -/

/-- The number of bytes in a block. -/
def BLOCK_SIZE : Nat := 32 * 1024

/-- The number of bytes in a single line. -/
def LINE_SIZE : Nat := 128

/-- The number of lines in a block. -/
def LINES_PER_BLOCK : Nat := BLOCK_SIZE / LINE_SIZE

/-- The number of bytes used for a single object. -/
def BYTES_PER_OBJECT : Nat := 32

/-- The number of objects that can fit in a block. -/
def OBJECTS_PER_BLOCK : Nat := BLOCK_SIZE / BYTES_PER_OBJECT

/-- The number of objects that can fit in a single line. -/
def OBJECTS_PER_LINE : Nat := LINE_SIZE / BYTES_PER_OBJECT

/-- The first slot objects can be allocated into. -/
def OBJECT_START_SLOT : Nat := LINE_SIZE / BYTES_PER_OBJECT

/-- The first line objects can be allocated into. -/
def LINE_START_SLOT : Nat := 1

/-! ## Bitmaps -/

/-- Modelled from the spec: `immix/bitmap.rs` is declared by the crate but its
source is not available. Section 4.1 of the specification describes a bitmap
as a fixed-width bit array with `set`, `unset`, `is_set`, `reset`, `len` and
`is_empty`; the set of indices whose bit is 1 is modelled as a `Finset Nat`. -/
abbrev Bitmap := Finset Nat

namespace Bitmap

/-- `set(index)`: turn bit `index` on. -/
def set (b : Bitmap) (index : Nat) : Bitmap := insert index b

/-- `unset(index)`: turn bit `index` off. -/
def unset (b : Bitmap) (index : Nat) : Bitmap := b.erase index

/-- `is_set(index)`: whether bit `index` is on. -/
def is_set (b : Bitmap) (index : Nat) : Bool := decide (index ∈ b)

/-- `reset()`: clear all bits. -/
def reset (_ : Bitmap) : Bitmap := ∅

/-- `len()`: the number of bits that are on. -/
def len (b : Bitmap) : Nat := b.card

/-- `is_empty()`: whether no bit is on. -/
def is_empty (b : Bitmap) : Bool := decide (b = ∅)

end Bitmap

/-! ## The `Block` structure (`vm/src/immix/block.rs`) -/

/-- Enum indicating the state of a block (`BlockStatus` in `block.rs`). -/
inductive BlockStatus where
  /-- The block is empty. -/
  | Free
  /-- The block can be recycled. -/
  | Recyclable
  /-- This block is full. -/
  | Full
  /-- The block is fragmented and objects need to be evacuated. -/
  | Fragmented
deriving DecidableEq

/-- Structure representing a single block (`Block` in `block.rs`).

The `lines` field is the byte address of the backing 32 KiB region (the raw
pointer returned by the aligned heap allocation in `Block::new`).
`free_pointer` and `end_pointer` are byte addresses into that region.  The
`bucket` back-pointer is the address of the owning bucket, `none` standing
for the null pointer.  The heap writes performed by `bump_allocate` (the
object payloads) are outside the model; everything the claims mention —
addresses, bitmaps, status and hole counts — is tracked exactly. -/
structure Block where
  /-- Byte address of the 32 KiB backing region (the Rust `lines` pointer). -/
  lines : Nat
  /-- The status of the block. -/
  status : BlockStatus
  /-- Bitmap used for tracking which object slots are live. -/
  marked_objects_bitmap : Bitmap
  /-- Bitmap tracking which lines contain one or more reachable objects. -/
  used_lines_bitmap : Bitmap
  /-- The pointer to use for allocating a new object. -/
  free_pointer : Nat
  /-- Pointer marking the end of the free pointer. -/
  end_pointer : Nat
  /-- Pointer to the bucket that manages this block (`none` = null). -/
  bucket : Option Nat
  /-- The number of holes in this block. -/
  holes : Nat
deriving DecidableEq

namespace Block

/-- `Block::start_address`: `lines.offset(OBJECT_START_SLOT)` on a pointer to
32-byte objects, i.e. the base address plus 128 bytes. -/
def start_address (b : Block) : Nat := b.lines + OBJECT_START_SLOT * BYTES_PER_OBJECT

/-- `Block::end_address`: `lines.offset(OBJECTS_PER_BLOCK)`, i.e. the base
address plus 32 KiB. -/
def end_address (b : Block) : Nat := b.lines + OBJECTS_PER_BLOCK * BYTES_PER_OBJECT

/-- `Block::new`: a fresh block over a backing region starting at `lines`;
status `Free`, empty bitmaps, cursors at `start_address`/`end_address`, a
null bucket pointer and one hole.  (The Rust constructor obtains `lines`
from the OS; here it is a parameter.) -/
def new (lines : Nat) : Block :=
  { lines := lines
    status := BlockStatus.Free
    marked_objects_bitmap := (∅ : Finset Nat)
    used_lines_bitmap := (∅ : Finset Nat)
    free_pointer := lines + OBJECT_START_SLOT * BYTES_PER_OBJECT
    end_pointer := lines + OBJECTS_PER_BLOCK * BYTES_PER_OBJECT
    bucket := none
    holes := 1 }

/-- `Block::reset_bitmaps`. -/
def reset_bitmaps (b : Block) : Block :=
  { b with used_lines_bitmap := b.used_lines_bitmap.reset
           marked_objects_bitmap := b.marked_objects_bitmap.reset }

/-- `Block::set_bucket`. -/
def set_bucket (b : Block) (bucket : Nat) : Block := { b with bucket := some bucket }

/-- `Block::is_available`: the status is `Free` or `Recyclable`. -/
def is_available (b : Block) : Bool :=
  match b.status with
  | BlockStatus.Free => true
  | BlockStatus.Recyclable => true
  | _ => false

/-- `Block::is_empty`: all lines in this block are available. -/
def is_empty (b : Block) : Bool := b.used_lines_bitmap.is_empty

/-- `Block::bump_allocate`: returns the pointer to the slot the object was
written to, and the block with `free_pointer` advanced by one object
(`free_pointer.offset(1)`, 32 bytes).  The write of the object payload
itself is a heap effect outside the model. -/
def bump_allocate (b : Block) : Nat × Block :=
  (b.free_pointer, { b with free_pointer := b.free_pointer + BYTES_PER_OBJECT })

/-- `Block::can_bump_allocate`: `free_pointer < end_pointer`. -/
def can_bump_allocate (b : Block) : Bool := decide (b.free_pointer < b.end_pointer)

/-- `Block::line_index_of_pointer`: mask the pointer down to its line start
(`pointer & LINE_BITMAP_MASK`, i.e. clear the low 7 bits) and take the
offset from the start of the backing region in lines. -/
def line_index_of_pointer (b : Block) (pointer : Nat) : Nat :=
  (pointer / LINE_SIZE * LINE_SIZE - b.lines) / LINE_SIZE

/-- The `for current_line_index in (line_index + 1)..LINES_PER_BLOCK` loop of
`Block::find_available_hole`: `line_pointer` is advanced by one line
(`OBJECTS_PER_LINE` objects) per iteration **before** the bitmap test, and
on the first unset line both cursors are set and the loop breaks. -/
def find_hole_loop (b : Block) : List Nat → Nat → Block
  | [], _ => b
  | current_line_index :: rest, line_pointer =>
    let lp := line_pointer + OBJECTS_PER_LINE * BYTES_PER_OBJECT
    if b.used_lines_bitmap.is_set current_line_index then
      b.find_hole_loop rest lp
    else
      { b with free_pointer := lp
               end_pointer := lp + OBJECTS_PER_LINE * BYTES_PER_OBJECT }

/-- `Block::find_available_hole`: moves the free/end pointer to the next
available hole, if any; a no-op when the free pointer is at `end_address`. -/
def find_available_hole (b : Block) : Block :=
  if b.free_pointer = b.end_address then
    b
  else
    let line_index := b.line_index_of_pointer b.free_pointer
    b.find_hole_loop
      (List.range' (line_index + 1) (LINES_PER_BLOCK - (line_index + 1)))
      b.free_pointer

/-- `Block::set_full`. -/
def set_full (b : Block) : Block := { b with status := BlockStatus.Full }

/-- `Block::reset`: resets the block to a pristine state. -/
def reset (b : Block) : Block :=
  { b with status := BlockStatus.Free
           holes := 1
           free_pointer := b.start_address
           end_pointer := b.end_address
           bucket := none
           used_lines_bitmap := b.used_lines_bitmap.reset
           marked_objects_bitmap := b.marked_objects_bitmap.reset }

/-- One iteration of the `for index in LINE_START_SLOT..LINES_PER_BLOCK` loop
of `Block::update_hole_count`; the state is `(in_hole, holes)`. -/
def hole_step (used : Bitmap) (st : Bool × Nat) (index : Nat) : Bool × Nat :=
  let is_set := used.is_set index
  if st.1 && is_set then (false, st.2)
  else if !st.1 && !is_set then (true, st.2 + 1)
  else st

/-- `Block::update_hole_count`: sets `holes` to the result of the scan over
lines `LINE_START_SLOT..LINES_PER_BLOCK` starting from `in_hole = false`,
`holes = 0`. -/
def update_hole_count (b : Block) : Block :=
  { b with holes :=
      ((List.range' LINE_START_SLOT (LINES_PER_BLOCK - LINE_START_SLOT)).foldl
        (hole_step b.used_lines_bitmap) (false, 0)).2 }

/-- `Block::marked_lines_count`. -/
def marked_lines_count (b : Block) : Nat := b.used_lines_bitmap.len

/-- `Block::available_lines_count`. -/
def available_lines_count (b : Block) : Nat :=
  (LINES_PER_BLOCK - 1) - b.marked_lines_count

end Block

/-! ## The lexer (`compiler/src/lexer.rs`) -/

/-- The token types of the lexer (`TokenType` in `lexer.rs`). -/
inductive TokenType where
  | Add | AddAssign | And | AndAssign | Arrow | Assign | Attribute
  | BitwiseAnd | BitwiseAndAssign | BitwiseOr | BitwiseOrAssign
  | BitwiseXor | BitwiseXorAssign | BracketClose | BracketOpen
  | Colon | ColonColon | Comment | Constant | CurlyClose | CurlyOpen
  | Div | DivAssign | Enum | Equal | Float | Greater | Identifier
  | Impl | Import | Integer | Let | Lower | Member | Modulo
  | ModuloAssign | Mul | MulAssign | Not | NotEqual | Object | Or
  | OrAssign | ParenClose | ParenOpen | Pow | PowAssign | Return
  | Self_ | ShiftLeft | ShiftRight | String | Sub | SubAssign
  | Trait | Var
deriving DecidableEq

/-- A token produced by the lexer (`Token` in `lexer.rs`); the `value`
string is modelled as its list of characters, so that the Rust
`value.chars().count()` is `value.length`. -/
structure Token where
  token_type : TokenType
  value : List Char
  line : Nat
  column : Nat
deriving DecidableEq

/-- The lexer state (`Lexer` in `lexer.rs`).  The `identifiers` keyword map
and the `specials` character set are initialisation-time constants; they are
carried as plain association/character lists. -/
structure Lexer where
  input : List Char
  position : Nat
  line : Nat
  column : Nat
  identifiers : List (List Char × TokenType)
  specials : List Char
  peeked : Option Token
deriving DecidableEq

namespace Lexer

/-- `Lexer::advance_column`: `self.column += amount`. -/
def advance_column (l : Lexer) (amount : Nat) : Lexer :=
  { l with column := l.column + amount }

/-- `Lexer::advance_column_from_token`:
`self.advance_column(token.value.chars().count())`. -/
def advance_column_from_token (l : Lexer) (token : Token) : Lexer :=
  l.advance_column token.value.length

end Lexer

/-! ## Array instructions (`vm/src/vm/instructions/array.rs`) -/

/-- Two's-complement wrap of an unbounded integer into the `i64` range,
modelling Rust's `as i64` cast and wrapping `i64` arithmetic. -/
def toI64 (n : Int) : Int := (n + 2 ^ 63) % 2 ^ 64 - 2 ^ 63

/-- Reinterpretation of an unbounded integer as a `usize` (64-bit),
modelling Rust's `as usize` cast on an `i64` value. -/
def toUSize (n : Int) : Nat := (n % 2 ^ 64).toNat

/-- The `int_to_vector_index!` macro: for a non-negative index, `index as
usize`; for a negative index, `($vec.len() as i64 - $index) as usize`.
`len` is the vector's length; `index` is the `i64` argument. -/
def int_to_vector_index (len : Nat) (index : Int) : Nat :=
  if 0 ≤ index then
    toUSize index
  else
    toUSize (toI64 (toI64 (len : Int) - index))

/-- The data path of the `array_insert` instruction handler, acting on the
array contents held in the register (elements are modelled as opaque
object-pointer values of type `Nat`).  It computes the index with
`int_to_vector_index!`, errors via `ensure_array_within_bounds!` when the
index is not below the length, and otherwise either overwrites the element
at the index (when `vector.get(index)` is `Some`) or falls back to the
shifting `Vec::insert`.  The `copy_if_permanent!` adjustment of the stored
value is abstracted: `value` stands for the pointer that ends up stored. -/
def array_insert (vector : List Nat) (index : Int) (value : Nat) :
    Except String (List Nat) :=
  let idx := int_to_vector_index vector.length index
  if idx ≥ vector.length then
    Except.error ("array index " ++ toString idx ++ " is out of bounds")
  else if (vector.get? idx).isSome then
    Except.ok (vector.set idx value)
  else
    Except.ok (vector.insertIdx idx value)

/-! ## Bucket, GlobalAllocator and MailboxAllocator -/

/-- Bucket age tag `MAILBOX` (spec section 4.3: `YOUNG = 0`, `MATURE`,
`MAILBOX`, `PERMANENT`). -/
def MAILBOX : Nat := 2

/-- Modelled from the spec: `immix/bucket.rs` is declared by the crate but
its source is not available.  Section 4.3: a bucket owns an ordered
collection of blocks, an age tag, and an index into the collection marking
the current allocation block. -/
structure Bucket where
  age : Nat
  blocks : List Block
  current_index : Nat
deriving DecidableEq

/-- Modelled from the spec: a bucket with the given age tag and no blocks. -/
def Bucket.with_age (age : Nat) : Bucket :=
  { age := age, blocks := [], current_index := 0 }

/-- Modelled from the spec: `immix/global_allocator.rs` is declared by the
crate but its source is not available.  Section 4.4: a pool of free blocks
(the mutex guarding it is irrelevant in this single-threaded model). -/
structure GlobalAllocator where
  blocks : List Block
deriving DecidableEq

namespace GlobalAllocator

/-- Modelled from the spec: `request_block` pops a block from the free list
and resets it before handing it out; when the list is empty it allocates a
fresh aligned region from the OS (the fresh region's base address is the
`fresh_lines` parameter, since the model has no OS). -/
def request_block (g : GlobalAllocator) (fresh_lines : Nat) :
    Block × GlobalAllocator :=
  match g.blocks with
  | [] => (Block.new fresh_lines, g)
  | b :: rest => (b.reset, { blocks := rest })

/-- Modelled from the spec: `add_block` pushes onto the free list. -/
def add_block (g : GlobalAllocator) (b : Block) : GlobalAllocator :=
  { blocks := g.blocks ++ [b] }

end GlobalAllocator

/-- Modelled from the spec: the first owned block after `current` that
`is_available()`, together with its index (spec section 4.3, step 3 of
`Bucket::allocate`). -/
def next_available (blocks : List Block) (current : Nat) :
    Option (Nat × Block) :=
  (blocks.enum.drop (current + 1)).find? (fun p => p.2.is_available)

/-- Modelled from the spec: `Bucket::allocate(global, obj) → (new_block,
pointer)` (section 4.3): (1) if the current block can bump allocate, bump
into it; (2) otherwise `find_available_hole` on it and, if it can now
allocate, do so; (3) otherwise advance to the next owned available block,
or request a free block from the global allocator, set its bucket
back-pointer and append it (`new_block = true`), and allocate there.  The
back-pointer records the owning bucket's address, whose numeric value no
claim inspects beyond nullness; it is recorded as `some 0`.  Returns
`(new_block, pointer, bucket, global)`. -/
def Bucket.allocate (bk : Bucket) (g : GlobalAllocator) (fresh_lines : Nat) :
    Bool × Nat × Bucket × GlobalAllocator :=
  match bk.blocks.get? bk.current_index with
  | some cb =>
    if cb.can_bump_allocate then
      let r := cb.bump_allocate
      (false, r.1, { bk with blocks := bk.blocks.set bk.current_index r.2 }, g)
    else
      let cb2 := cb.find_available_hole
      if cb2.can_bump_allocate then
        let r := cb2.bump_allocate
        (false, r.1, { bk with blocks := bk.blocks.set bk.current_index r.2 }, g)
      else
        match next_available bk.blocks bk.current_index with
        | some (j, nb) =>
          let r := nb.bump_allocate
          (false, r.1,
            { bk with current_index := j, blocks := bk.blocks.set j r.2 }, g)
        | none =>
          let rq := g.request_block fresh_lines
          let r := (rq.1.set_bucket 0).bump_allocate
          (true, r.1,
            { bk with current_index := bk.blocks.length
                      blocks := bk.blocks ++ [r.2] }, rq.2)
  | none =>
    let rq := g.request_block fresh_lines
    let r := (rq.1.set_bucket 0).bump_allocate
    (true, r.1,
      { bk with current_index := bk.blocks.length
                blocks := bk.blocks ++ [r.2] }, rq.2)

/-- The `MailboxAllocator` (`vm/src/immix/mailbox_allocator.rs`).  The Rust
struct holds the global allocator through a shared `Rc`; the model holds it
by value and threads it through each operation. -/
structure MailboxAllocator where
  global_allocator : GlobalAllocator
  bucket : Bucket
  /-- The number of blocks allocated since the last collection cycle. -/
  block_allocations : Nat
  /-- The number of blocks that can be allocated before GC is triggered. -/
  block_allocation_threshold : Nat
deriving DecidableEq

namespace MailboxAllocator

/-- `MailboxAllocator::new`: a `MAILBOX`-aged bucket, no allocations yet and
a threshold of `(1 * 1024 * 1024) / BLOCK_SIZE` blocks. -/
def new (g : GlobalAllocator) : MailboxAllocator :=
  { global_allocator := g
    bucket := Bucket.with_age MAILBOX
    block_allocations := 0
    block_allocation_threshold := (1 * 1024 * 1024) / BLOCK_SIZE }

/-- `MailboxAllocator::allocate`: allocate through the bucket and increment
`block_allocations` when the bucket reported a new block.  Returns the
object pointer and the updated allocator. -/
def allocate (a : MailboxAllocator) (fresh_lines : Nat) :
    Nat × MailboxAllocator :=
  let r := a.bucket.allocate a.global_allocator fresh_lines
  (r.2.1,
    { a with bucket := r.2.2.1
             global_allocator := r.2.2.2
             block_allocations :=
               if r.1 then a.block_allocations + 1 else a.block_allocations })

/-- `MailboxAllocator::allocation_threshold_exceeded`:
`block_allocations >= block_allocation_threshold`. -/
def allocation_threshold_exceeded (a : MailboxAllocator) : Bool :=
  decide (a.block_allocations ≥ a.block_allocation_threshold)

/-- `impl Drop for MailboxAllocator`: drain the bucket's blocks in order,
reset each and add it to the global allocator.  Returns the final state of
the (shared) global allocator. -/
def drop (a : MailboxAllocator) : GlobalAllocator :=
  a.bucket.blocks.foldl (fun g block => g.add_block block.reset)
    a.global_allocator

end MailboxAllocator

/-! ## Abstract characterisations used to state the claims

These definitions follow the specification's wording (not the code); the
theorems below compare the code's behaviour against them. -/

def firstUnsetLine (used : Bitmap) : Nat → Nat → Option Nat
  | _, 0 => none
  | s, n + 1 => if s ∈ used then firstUnsetLine used (s + 1) n else some s

def numMaximalUnsetRuns (used : Bitmap) : Nat :=
  ((Finset.Ico LINE_START_SLOT LINES_PER_BLOCK).filter
    (fun i => i ∉ used ∧ (i = LINE_START_SLOT ∨ (i - 1) ∈ used))).card

/-- Modelled from the spec's wording: `(a, b)` is a maximal run of unset
bits in the line bitmap when every line in `[a, b]` is unset and the run
can be extended in neither direction within indices
`LINE_START_SLOT..LINES_PER_BLOCK`. -/
def isMaximalUnsetRun (used : Bitmap) (p : Nat × Nat) : Prop :=
  LINE_START_SLOT ≤ p.1 ∧ p.1 ≤ p.2 ∧ p.2 < LINES_PER_BLOCK ∧
  (∀ j ∈ Finset.Icc p.1 p.2, j ∉ used) ∧
  (p.1 = LINE_START_SLOT ∨ (p.1 - 1) ∈ used) ∧
  (p.2 = LINES_PER_BLOCK - 1 ∨ (p.2 + 1) ∈ used)

instance (used : Bitmap) : DecidablePred (isMaximalUnsetRun used) := fun p => by
  unfold isMaximalUnsetRun
  infer_instance

/-- The set of all maximal runs of unset bits, as intervals. -/
def maximalUnsetRuns (used : Bitmap) : Finset (Nat × Nat) :=
  ((Finset.Ico LINE_START_SLOT LINES_PER_BLOCK) ×ˢ
    (Finset.Ico LINE_START_SLOT LINES_PER_BLOCK)).filter (isMaximalUnsetRun used)

/-- The largest `e ≤ 255` such that all of `[a, e]` is unset (the right end
of the maximal run starting at `a`, when `a` itself is unset). -/
def runEnd (used : Bitmap) (a : Nat) : Nat :=
  Nat.findGreatest (fun e => ∀ j ∈ Finset.Icc a e, j ∉ used)
    (LINES_PER_BLOCK - 1)

/-! ## Concrete scenario states from the specification's test scenarios -/

/-- S3 scenario block: fresh block with lines 1, 3 and 10 marked used. -/
def s3Block : Block :=
  { Block.new 0 with used_lines_bitmap := (((∅ : Bitmap).set 1).set 3).set 10 }

/-- The block of the S2 scenario after its first step: one object allocated
from a fresh block at base 0, then line 1 marked used.  Its `free_pointer`
is 160 = line 1 start + 32 bytes. -/
def holeDemoBlock : Block :=
  { (Block.new 0).bump_allocate.2 with used_lines_bitmap := (∅ : Bitmap).set 1 }

/-- Failing input for the cursor invariant, produced by the normal
allocation protocol: starting from `holeDemoBlock` (fresh block at base 0,
one object allocated, line 1 marked), `find_available_hole` puts the
cursors at 288/416; four bump allocations then exhaust the hole
(`free_pointer = end_pointer = 416`, 32 bytes into line 3), which is
exactly when a bucket calls `find_available_hole` again; meanwhile marking
has set lines 1 through 254, leaving only line 255 unset. -/
def overflowBlock : Block :=
  { (((((holeDemoBlock.find_available_hole).bump_allocate.2).bump_allocate.2
      ).bump_allocate.2).bump_allocate.2)
    with used_lines_bitmap := Finset.Ico 1 255 }

/-- S2 scenario, step 2: `find_available_hole` after line 1 was marked. -/
def s2Find1 : Block := holeDemoBlock.find_available_hole

/-- S2 scenario: the second allocated pointer. -/
def s2Ptr2 : Nat := s2Find1.bump_allocate.1

/-- S2 scenario, step 3: after the second allocation, lines 2 and 3 marked. -/
def s2Block2 : Block :=
  { s2Find1.bump_allocate.2 with used_lines_bitmap :=
      ((s2Find1.bump_allocate.2.used_lines_bitmap).set 2).set 3 }

/-- S2 scenario, step 4: `find_available_hole` again. -/
def s2Find2 : Block := s2Block2.find_available_hole

/-- S2 scenario: the third allocated pointer. -/
def s2Ptr3 : Nat := s2Find2.bump_allocate.1

set_option maxRecDepth 1000000

/-! ## Helper lemmas -/

theorem firstUnsetLine_ge {used : Bitmap} :
    ∀ {n s c : Nat}, firstUnsetLine used s n = some c → s ≤ c := by
  intro n
  induction n with
  | zero => intro s c h; simp [firstUnsetLine] at h
  | succ n ih =>
    intro s c h
    rw [firstUnsetLine] at h
    split at h
    · exact Nat.le_of_succ_le (ih h)
    · cases h; exact Nat.le_refl _

theorem firstUnsetLine_lt {used : Bitmap} :
    ∀ {n s c : Nat}, firstUnsetLine used s n = some c → c < s + n := by
  intro n
  induction n with
  | zero => intro s c h; simp [firstUnsetLine] at h
  | succ n ih =>
    intro s c h
    rw [firstUnsetLine] at h
    split at h
    · have := ih h; omega
    · cases h; omega

theorem firstUnsetLine_not_mem {used : Bitmap} :
    ∀ {n s c : Nat}, firstUnsetLine used s n = some c → c ∉ used := by
  intro n
  induction n with
  | zero => intro s c h; simp [firstUnsetLine] at h
  | succ n ih =>
    intro s c h
    rw [firstUnsetLine] at h
    split at h
    · exact ih h
    · cases h; assumption

theorem firstUnsetLine_min {used : Bitmap} :
    ∀ {n s c : Nat}, firstUnsetLine used s n = some c →
      ∀ j, s ≤ j → j < c → j ∈ used := by
  intro n
  induction n with
  | zero => intro s c h; simp [firstUnsetLine] at h
  | succ n ih =>
    intro s c h j hsj hjc
    rw [firstUnsetLine] at h
    split at h
    · rcases Nat.eq_or_lt_of_le hsj with rfl | hlt
      · assumption
      · exact ih h j hlt hjc
    · cases h; omega

theorem firstUnsetLine_none {used : Bitmap} :
    ∀ {n s : Nat}, firstUnsetLine used s n = none →
      ∀ j, s ≤ j → j < s + n → j ∈ used := by
  intro n
  induction n with
  | zero => intro s _ j h1 h2; omega
  | succ n ih =>
    intro s h j hsj hjn
    rw [firstUnsetLine] at h
    split at h
    · rcases Nat.eq_or_lt_of_le hsj with rfl | hlt
      · assumption
      · exact ih h j hlt (by omega)
    · exact absurd h (by simp)

theorem firstUnsetLine_all_mem {used : Bitmap} :
    ∀ {n s : Nat}, (∀ j, s ≤ j → j < s + n → j ∈ used) →
      firstUnsetLine used s n = none := by
  intro n
  induction n with
  | zero => intro s _; rfl
  | succ n ih =>
    intro s hall
    rw [firstUnsetLine, if_pos (hall s (by omega) (by omega))]
    exact ih fun j h1 h2 => hall j (by omega) (by omega)

theorem find_hole_loop_spec (b : Block) :
    ∀ (n s lp : Nat),
      b.find_hole_loop (List.range' s n) lp =
        match firstUnsetLine b.used_lines_bitmap s n with
        | none => b
        | some c =>
          { b with free_pointer := lp + (c + 1 - s) * LINE_SIZE
                   end_pointer := lp + (c + 1 - s) * LINE_SIZE + LINE_SIZE } := by
  intro n
  induction n with
  | zero => intro s lp; simp [firstUnsetLine, Block.find_hole_loop]
  | succ n ih =>
    intro s lp
    rw [List.range'_succ, Block.find_hole_loop, firstUnsetLine]
    by_cases hs : s ∈ b.used_lines_bitmap
    · simp only [Bitmap.is_set, hs, decide_True, if_pos hs]
      rw [ih (s + 1) (lp + OBJECTS_PER_LINE * BYTES_PER_OBJECT)]
      rcases hfu : firstUnsetLine b.used_lines_bitmap (s + 1) n with _ | c
      · simp
      · have hge := firstUnsetLine_ge hfu
        have harith : lp + OBJECTS_PER_LINE * BYTES_PER_OBJECT + (c + 1 - (s + 1)) * LINE_SIZE
            = lp + (c + 1 - s) * LINE_SIZE := by
          show lp + 4 * 32 + (c + 1 - (s + 1)) * 128 = lp + (c + 1 - s) * 128
          omega
        simp only [harith]
        simp
    · simp only [Bitmap.is_set, hs, decide_False, if_neg hs]
      simp only [Bool.false_eq_true, if_false]
      rw [show OBJECTS_PER_LINE * BYTES_PER_OBJECT = LINE_SIZE from rfl]
      simp only [show s + 1 - s = 1 from by omega, one_mul]

theorem hole_fold_spec (used : Bitmap) :
    ∀ (n s : Nat) (inHole : Bool) (acc : Nat), 1 ≤ s →
      inHole = decide (1 ≤ s - 1 ∧ (s - 1) ∉ used) →
      ((List.range' s n).foldl (Block.hole_step used) (inHole, acc)).2 =
        acc + ((Finset.Ico s (s + n)).filter
              (fun i => i ∉ used ∧ (i = 1 ∨ (i - 1) ∈ used))).card := by
  intro n
  induction n with
  | zero =>
    intro s inHole acc hs hinv
    simp
  | succ n ih =>
    intro s inHole acc hs hinv
    rw [List.range'_succ, List.foldl_cons]
    have hfst : (Block.hole_step used (inHole, acc) s).1 = !(used.is_set s) := by
      cases inHole <;> by_cases hm : s ∈ used <;>
        simp [Block.hole_step, Bitmap.is_set, hm]
    have hsnd : (Block.hole_step used (inHole, acc) s).2 =
        acc + (if s ∉ used ∧ (s = 1 ∨ (s - 1) ∈ used) then 1 else 0) := by
      by_cases hm : s ∈ used
      · cases inHole <;> simp [Block.hole_step, Bitmap.is_set, hm]
      · have hiff : (inHole = false) ↔ (s = 1 ∨ (s - 1) ∈ used) := by
          rw [hinv]
          by_cases hp : (s - 1) ∈ used
          · simp [hp]
          · by_cases h1 : s = 1
            · subst h1; simp
            · have h2 : 1 ≤ s - 1 := by omega
              simp [hp, h2, h1]
        cases inHole
        · simp [Block.hole_step, Bitmap.is_set, hm, hiff.mp rfl]
        · have hnot : ¬ (s = 1 ∨ (s - 1) ∈ used) := by
            intro hcon
            simpa using hiff.mpr hcon
          simp [Block.hole_step, Bitmap.is_set, hm, hnot]
    have hpair : Block.hole_step used (inHole, acc) s =
        (!(used.is_set s),
          acc + (if s ∉ used ∧ (s = 1 ∨ (s - 1) ∈ used) then 1 else 0)) := by
      rw [← hfst, ← hsnd]
    rw [hpair]
    have hnewinv : (!(used.is_set s)) =
        decide (1 ≤ (s + 1) - 1 ∧ ((s + 1) - 1) ∉ used) := by
      simp only [Nat.add_sub_cancel]
      by_cases hm : s ∈ used <;> simp [Bitmap.is_set, hm, hs]
    rw [ih (s + 1) _ _ (by omega) hnewinv]
    have hico : Finset.Ico s (s + (n + 1)) =
        insert s (Finset.Ico (s + 1) (s + 1 + n)) := by
      rw [show s + 1 + n = s + (n + 1) from by omega]
      exact (Nat.Ico_insert_succ_left (by omega)).symm
    rw [hico, Finset.filter_insert]
    by_cases hp : s ∉ used ∧ (s = 1 ∨ (s - 1) ∈ used)
    · rw [if_pos hp, if_pos hp,
        Finset.card_insert_of_not_mem (by simp [Finset.mem_Ico])]
      omega
    · rw [if_neg hp, if_neg hp]
      omega

theorem foldl_add_block (l : List Block) :
    ∀ g : GlobalAllocator,
      (l.foldl (fun g block => g.add_block block.reset) g).blocks =
        g.blocks ++ l.map Block.reset := by
  induction l with
  | nil => intro g; simp
  | cons b rest ih =>
    intro g
    rw [List.foldl_cons, List.map_cons, ih]
    simp [GlobalAllocator.add_block]

theorem toUSize_toI64 (x : Int) : toUSize (toI64 x) = toUSize x := by
  unfold toUSize toI64
  have h64 : (2 : Int) ^ 64 = 18446744073709551616 := by norm_num
  have h63 : (2 : Int) ^ 63 = 9223372036854775808 := by norm_num
  rw [h64, h63]
  congr 1
  omega

theorem toI64_of_small (n : Nat) (h : n < 2 ^ 63) : toI64 (n : Int) = (n : Int) := by
  unfold toI64
  have h64 : (2 : Int) ^ 64 = 18446744073709551616 := by norm_num
  have h63 : (2 : Int) ^ 63 = 9223372036854775808 := by norm_num
  have hn : (n : Int) < 9223372036854775808 := by
    have := h
    omega
  rw [h64, h63]
  omega

/-- Arithmetic for relocating the line index: if the base is line-aligned
and at most `p`, the line index of `p` plus `k` lines is the line index of
`p` plus `k`. -/
theorem line_index_shift (b : Block) (p k : Nat)
    (hdvd : LINE_SIZE ∣ b.lines) (hle : b.lines ≤ p) :
    b.line_index_of_pointer (p + k * LINE_SIZE) =
      b.line_index_of_pointer p + k := by
  unfold Block.line_index_of_pointer
  have h : LINE_SIZE = 128 := rfl
  rw [h] at hdvd ⊢
  omega

/-- Each maximal run of unset bits is uniquely identified by its first
line, so the interval count agrees with the run-start count. -/
theorem card_maximalUnsetRuns (used : Bitmap) :
    (maximalUnsetRuns used).card = numMaximalUnsetRuns used := by
  have hLPB : LINES_PER_BLOCK = 256 := rfl
  have hLSS : LINE_START_SLOT = 1 := rfl
  unfold maximalUnsetRuns numMaximalUnsetRuns
  apply Finset.card_bij (fun p _ => p.1)
  · intro p hp
    rw [Finset.mem_filter, Finset.mem_product] at hp
    obtain ⟨⟨h1, _⟩, ha1, hab, hb, hall, hleft, _⟩ := hp
    rw [Finset.mem_filter]
    exact ⟨h1, hall p.1 (Finset.mem_Icc.mpr ⟨le_refl _, hab⟩), hleft⟩
  · intro p hp q hq heq
    rw [Finset.mem_filter, Finset.mem_product] at hp hq
    obtain ⟨_, _, hab, hb, hall, _, hright⟩ := hp
    obtain ⟨_, _, hab', hb', hall', _, hright'⟩ := hq
    have hfst : p.1 = q.1 := heq
    have hsnd : p.2 = q.2 := by
      rcases Nat.lt_trichotomy p.2 q.2 with h | h | h
      · exfalso
        rcases hright with he | hm
        · omega
        · exact hall' (p.2 + 1)
            (Finset.mem_Icc.mpr ⟨by omega, by omega⟩) hm
      · exact h
      · exfalso
        rcases hright' with he | hm
        · omega
        · exact hall (q.2 + 1)
            (Finset.mem_Icc.mpr ⟨by omega, by omega⟩) hm
    exact Prod.ext hfst hsnd
  · intro a ha
    rw [Finset.mem_filter, Finset.mem_Ico] at ha
    obtain ⟨⟨ha1, ha256⟩, hna, hstart⟩ := ha
    have hP : ∀ j ∈ Finset.Icc a a, j ∉ used := by
      intro j hj
      rw [Finset.mem_Icc] at hj
      rw [show j = a from by omega]
      exact hna
    have hle : a ≤ LINES_PER_BLOCK - 1 := by omega
    have haE : a ≤ runEnd used a :=
      Nat.le_findGreatest (P := fun e => ∀ j ∈ Finset.Icc a e, j ∉ used)
        hle hP
    have hEle : runEnd used a ≤ LINES_PER_BLOCK - 1 :=
      Nat.findGreatest_le (P := fun e => ∀ j ∈ Finset.Icc a e, j ∉ used) _
    have hPE : ∀ j ∈ Finset.Icc a (runEnd used a), j ∉ used :=
      Nat.findGreatest_spec
        (P := fun e => ∀ j ∈ Finset.Icc a e, j ∉ used) hle hP
    have hmax : runEnd used a = LINES_PER_BLOCK - 1 ∨
        (runEnd used a + 1) ∈ used := by
      by_cases he : runEnd used a = LINES_PER_BLOCK - 1
      · exact Or.inl he
      · right
        have hgt : ¬ (∀ j ∈ Finset.Icc a (runEnd used a + 1), j ∉ used) :=
          Nat.findGreatest_is_greatest
            (P := fun e => ∀ j ∈ Finset.Icc a e, j ∉ used)
            (n := LINES_PER_BLOCK - 1)
            (by unfold runEnd at hEle ⊢; omega) (by omega)
        by_contra hnm
        apply hgt
        intro j hj
        rw [Finset.mem_Icc] at hj
        by_cases hje : j = runEnd used a + 1
        · rw [hje]; exact hnm
        · exact hPE j (Finset.mem_Icc.mpr ⟨hj.1, by omega⟩)
    refine ⟨(a, runEnd used a), ?_, rfl⟩
    rw [Finset.mem_filter, Finset.mem_product, Finset.mem_Ico, Finset.mem_Ico]
    exact ⟨⟨⟨ha1, ha256⟩, ⟨by omega, by omega⟩⟩,
      ha1, haE, by omega, hPE, hstart, hmax⟩

/-! ## The claims -/

/-- C1 counterexample -/
theorem find_available_hole_not_line_start :
    holeDemoBlock.line_index_of_pointer holeDemoBlock.free_pointer = 1 ∧
    holeDemoBlock.used_lines_bitmap.is_set 1 = true ∧
    holeDemoBlock.used_lines_bitmap.is_set 2 = false ∧
    holeDemoBlock.free_pointer ≠ holeDemoBlock.end_address ∧
    holeDemoBlock.lines + 2 * LINE_SIZE = 256 ∧
    (holeDemoBlock.find_available_hole).free_pointer = 288 ∧
    (288 : Nat) ≠ 256 ∧
    holeDemoBlock.lines + 3 * LINE_SIZE = 384 ∧
    (holeDemoBlock.find_available_hole).end_pointer = 416 ∧
    (416 : Nat) ≠ 384 := by
  decide

/-- C1 (amended) -/
theorem find_available_hole_spec :
    (∀ b : Block, b.free_pointer = b.end_address → b.find_available_hole = b) ∧
    (∀ b : Block, b.free_pointer ≠ b.end_address →
      ((∀ j, b.line_index_of_pointer b.free_pointer < j →
          j < LINES_PER_BLOCK → j ∈ b.used_lines_bitmap) →
        b.find_available_hole = b) ∧
      (∀ c, firstUnsetLine b.used_lines_bitmap
          (b.line_index_of_pointer b.free_pointer + 1)
          (LINES_PER_BLOCK - (b.line_index_of_pointer b.free_pointer + 1)) =
            some c →
        c ∉ b.used_lines_bitmap ∧
        b.line_index_of_pointer b.free_pointer < c ∧
        c < LINES_PER_BLOCK ∧
        (∀ j, b.line_index_of_pointer b.free_pointer < j → j < c →
          j ∈ b.used_lines_bitmap) ∧
        (b.find_available_hole).free_pointer =
          b.free_pointer +
            (c - b.line_index_of_pointer b.free_pointer) * LINE_SIZE ∧
        (b.find_available_hole).end_pointer =
          (b.find_available_hole).free_pointer + LINE_SIZE ∧
        (LINE_SIZE ∣ b.lines → b.lines ≤ b.free_pointer →
          b.line_index_of_pointer (b.find_available_hole).free_pointer = c) ∧
        (b.find_available_hole).used_lines_bitmap = b.used_lines_bitmap ∧
        (b.find_available_hole).lines = b.lines ∧
        (b.find_available_hole).status = b.status)) ∧
    ((Block.new 0).line_index_of_pointer (Block.new 0).bump_allocate.1 = 1 ∧
     s2Find1.line_index_of_pointer s2Ptr2 = 2 ∧
     s2Find2.line_index_of_pointer s2Ptr3 = 4) := by
  refine ⟨?_, ?_, by decide⟩
  · intro b h
    unfold Block.find_available_hole
    rw [if_pos h]
  · intro b hne
    have hrw : b.find_available_hole =
        b.find_hole_loop
          (List.range' (b.line_index_of_pointer b.free_pointer + 1)
            (LINES_PER_BLOCK - (b.line_index_of_pointer b.free_pointer + 1)))
          b.free_pointer := by
      unfold Block.find_available_hole
      rw [if_neg hne]
    constructor
    · intro hall
      have hnone : firstUnsetLine b.used_lines_bitmap
          (b.line_index_of_pointer b.free_pointer + 1)
          (LINES_PER_BLOCK - (b.line_index_of_pointer b.free_pointer + 1)) =
            none :=
        firstUnsetLine_all_mem fun j h1 h2 => hall j (by omega) (by omega)
      rw [hrw, find_hole_loop_spec, hnone]
    · intro c hfu
      have hge := firstUnsetLine_ge hfu
      have hnm := firstUnsetLine_not_mem hfu
      have hmin := firstUnsetLine_min hfu
      set li := b.line_index_of_pointer b.free_pointer with hli
      have hcLPB : c < LINES_PER_BLOCK := by
        have hlt' := firstUnsetLine_lt hfu
        rcases Nat.lt_or_ge (li + 1) LINES_PER_BLOCK with hc | hc
        · omega
        · rw [show LINES_PER_BLOCK - (li + 1) = 0 from by omega] at hfu
          simp [firstUnsetLine] at hfu
      have hres : b.find_available_hole =
          { b with free_pointer := b.free_pointer + (c - li) * LINE_SIZE
                   end_pointer :=
                     b.free_pointer + (c - li) * LINE_SIZE + LINE_SIZE } := by
        rw [hrw, find_hole_loop_spec, hfu]
        simp only [show c + 1 - (li + 1) = c - li from by omega]
      refine ⟨hnm, by omega, hcLPB,
        fun j hj1 hj2 => hmin j (by omega) hj2, ?_, ?_, ?_, ?_, ?_, ?_⟩
      · rw [hres]
      · rw [hres]
      · intro hdvd hlep
        rw [hres]
        show b.line_index_of_pointer
          (b.free_pointer + (c - li) * LINE_SIZE) = c
        rw [line_index_shift b b.free_pointer (c - li) hdvd hlep, ← hli]
        omega
      · rw [hres]
      · rw [hres]
      · rw [hres]

/-- C1 witness -/
theorem find_available_hole_spec_witness :
    (holeDemoBlock.find_available_hole).free_pointer =
      holeDemoBlock.free_pointer +
        (2 - holeDemoBlock.line_index_of_pointer holeDemoBlock.free_pointer) *
          LINE_SIZE ∧
    (holeDemoBlock.find_available_hole).end_pointer =
      (holeDemoBlock.find_available_hole).free_pointer + LINE_SIZE ∧
    holeDemoBlock.line_index_of_pointer
      (holeDemoBlock.find_available_hole).free_pointer = 2 := by
  have h := (find_available_hole_spec.2.1 holeDemoBlock (by decide)).2 2 (by decide)
  exact ⟨h.2.2.2.2.1, h.2.2.2.2.2.1,
    h.2.2.2.2.2.2.1 (by decide) (by decide)⟩


/-- C2 -/
theorem update_hole_count_spec :
    (∀ b : Block,
      (b.update_hole_count).holes = numMaximalUnsetRuns b.used_lines_bitmap) ∧
    (∀ b : Block,
      (b.update_hole_count).holes =
        (maximalUnsetRuns b.used_lines_bitmap).card) ∧
    (s3Block.update_hole_count).holes = 3 := by
  have hmain : ∀ b : Block,
      (b.update_hole_count).holes = numMaximalUnsetRuns b.used_lines_bitmap := by
    intro b
    show ((List.range' 1 255).foldl (Block.hole_step b.used_lines_bitmap)
        (false, 0)).2 = _
    rw [hole_fold_spec b.used_lines_bitmap 255 1 false 0 (by omega) (by simp)]
    norm_num [numMaximalUnsetRuns, LINE_START_SLOT, LINES_PER_BLOCK, BLOCK_SIZE,
      LINE_SIZE]
  refine ⟨hmain, fun b => by rw [hmain b, card_maximalUnsetRuns], by decide⟩

/-- C3 -/
theorem find_available_hole_breaks_block_end :
    (overflowBlock.start_address ≤ overflowBlock.free_pointer ∧
     overflowBlock.free_pointer ≤ overflowBlock.end_pointer ∧
     overflowBlock.end_pointer ≤ overflowBlock.end_address) ∧
    overflowBlock.can_bump_allocate = false ∧
    (overflowBlock.find_available_hole).end_pointer =
      overflowBlock.end_address + 32 ∧
    overflowBlock.end_address < (overflowBlock.find_available_hole).end_pointer ∧
    (overflowBlock.find_available_hole).can_bump_allocate = true ∧
    (overflowBlock.find_available_hole).free_pointer + 3 * BYTES_PER_OBJECT =
      overflowBlock.end_address := by
  decide

/-- C4 -/
theorem reset_spec (b : Block) :
    (b.reset).status = BlockStatus.Free ∧
    (b.reset).holes = 1 ∧
    (b.reset).free_pointer = b.start_address ∧
    (b.reset).end_pointer = b.end_address ∧
    (b.reset).bucket = none ∧
    (b.reset).marked_objects_bitmap.is_empty = true ∧
    (b.reset).used_lines_bitmap.is_empty = true := by
  refine ⟨rfl, rfl, rfl, rfl, rfl, ?_, ?_⟩ <;>
    simp [Block.reset, Bitmap.reset, Bitmap.is_empty]

/-- C5 -/
theorem mailbox_drop_spec :
    (∀ a : MailboxAllocator,
      a.drop.blocks =
        a.global_allocator.blocks ++ a.bucket.blocks.map Block.reset) ∧
    (((MailboxAllocator.new ⟨[]⟩).allocate 0).2.drop.blocks.length = 1) := by
  constructor
  · intro a
    exact foldl_add_block a.bucket.blocks a.global_allocator
  · rfl

/-- C6 -/
theorem int_to_vector_index_negative (len : Nat) (index : Int)
    (hlen : len < 2 ^ 63) (hlo : -(2 ^ 63) ≤ index) (hneg : index < 0) :
    int_to_vector_index len index = len + index.natAbs ∧
    len < int_to_vector_index len index := by
  have key : int_to_vector_index len index = len + index.natAbs := by
    unfold int_to_vector_index
    rw [if_neg (by omega), toUSize_toI64, toI64_of_small len hlen]
    unfold toUSize
    have h64 : (2 : Int) ^ 64 = 18446744073709551616 := by norm_num
    have h63 : (2 : Nat) ^ 63 = 9223372036854775808 := by norm_num
    rw [h64]
    rw [h63] at hlen
    have h63i : -(2 : Int) ^ 63 = -9223372036854775808 := by norm_num
    rw [h63i] at hlo
    have hlen' : (len : Int) < 9223372036854775808 := by omega
    omega
  refine ⟨key, ?_⟩
  rw [key]
  omega

theorem int_to_vector_index_negative_witness :
    int_to_vector_index 3 (-1) = 3 + (-1 : Int).natAbs ∧
    3 < int_to_vector_index 3 (-1) :=
  int_to_vector_index_negative 3 (-1) (by norm_num) (by norm_num) (by norm_num)

/-- C8 -/
theorem advance_column_from_token_spec :
    (∀ (l : Lexer) (t : Token),
      (l.advance_column_from_token t).column = l.column + t.value.length ∧
      (l.advance_column_from_token t).position = l.position ∧
      (l.advance_column_from_token t).line = l.line ∧
      (l.advance_column_from_token t).input = l.input ∧
      (l.advance_column_from_token t).identifiers = l.identifiers ∧
      (l.advance_column_from_token t).specials = l.specials ∧
      (l.advance_column_from_token t).peeked = l.peeked) ∧
    (({ input := [], position := 0, line := 1, column := 1, identifiers := [],
        specials := [], peeked := none : Lexer }.advance_column_from_token
      { token_type := TokenType.String, value := ['a', 'b', '\n', 'c', 'd'],
        line := 1, column := 1 }).column = 6 ∧
     ({ input := [], position := 0, line := 1, column := 1, identifiers := [],
        specials := [], peeked := none : Lexer }.advance_column_from_token
      { token_type := TokenType.String, value := ['a', 'b', '\n', 'c', 'd'],
        line := 1, column := 1 }).line = 1) := by
  exact ⟨fun l t => ⟨rfl, rfl, rfl, rfl, rfl, rfl, rfl⟩, rfl, rfl⟩

/-- C9 -/
theorem allocation_threshold_exceeded_iff :
    (∀ a : MailboxAllocator,
      a.allocation_threshold_exceeded = true ↔
        a.block_allocations ≥ a.block_allocation_threshold) ∧
    ({ global_allocator := ⟨[]⟩, bucket := Bucket.with_age MAILBOX,
       block_allocations := 1, block_allocation_threshold := 1 :
        MailboxAllocator }.allocation_threshold_exceeded = true) := by
  constructor
  · intro a
    simp [MailboxAllocator.allocation_threshold_exceeded]
  · rfl

/-- C10 -/
theorem array_insert_spec (v : List Nat) (index : Int) (value : Nat) :
    ((∃ e, array_insert v index value = Except.error e) ↔
      int_to_vector_index v.length index ≥ v.length) ∧
    (int_to_vector_index v.length index < v.length →
      array_insert v index value =
        Except.ok (v.set (int_to_vector_index v.length index) value)) ∧
    (∀ w, array_insert v index value = Except.ok w → w.length = v.length) := by
  by_cases h : int_to_vector_index v.length index ≥ v.length
  · have herr : array_insert v index value =
        Except.error ("array index " ++
          toString (int_to_vector_index v.length index) ++
          " is out of bounds") := by
      unfold array_insert
      rw [if_pos h]
    refine ⟨⟨fun _ => h, fun _ => ⟨_, herr⟩⟩, fun hlt => absurd hlt (by omega), ?_⟩
    intro w hw
    rw [herr] at hw
    cases hw
  · push_neg at h
    have hsome : (v.get? (int_to_vector_index v.length index)).isSome := by
      rw [List.get?_eq_get h]
      rfl
    have hok : array_insert v index value =
        Except.ok (v.set (int_to_vector_index v.length index) value) := by
      unfold array_insert
      rw [if_neg (by omega), if_pos hsome]
    refine ⟨⟨?_, fun hge => absurd hge (by omega)⟩, fun _ => hok, ?_⟩
    · rintro ⟨e, he⟩
      rw [hok] at he
      cases he
    · intro w hw
      rw [hok] at hw
      cases hw
      exact List.length_set v _ _

theorem array_insert_spec_witness :
    array_insert [7, 8] 1 9 = Except.ok ([7, 8].set 1 9) :=
  (array_insert_spec [7, 8] 1 9).2.1 (by decide)

